import Mathlib

/-!
Shallow embedding of the self-playing snake game (snake_game_6.py):
the arena constants, the greedy path-selection heuristic, free-cell
sampling, the per-tick game-loop transition, and the high-score store.
Positions are pixel coordinates that are multiples of `CELL_SIZE`,
exactly as in the source.  The ambient random source is modelled as an
explicit stream of `randint` results, and wall-clock time as an integral
timestamp (the cadence threshold 2 is integral, so the boundary
behaviour of the comparison is preserved)
passed into each tick.
-/

namespace Snake

/-- A board position, as in the source: a pair of pixel coordinates. -/
abbrev Pos := Int × Int

def WIDTH : Int := 600
def HEIGHT : Int := 400
def CELL_SIZE : Int := 20

def UP : Pos := (0, -1)
def DOWN : Pos := (0, 1)
def LEFT : Pos := (-1, 0)
def RIGHT : Pos := (1, 0)

/-- The cell reached from `head` by one step in direction `move`
(`head_x + move[0] * CELL_SIZE, head_y + move[1] * CELL_SIZE`). -/
def newPos (head move : Pos) : Pos :=
  (head.1 + move.1 * CELL_SIZE, head.2 + move.2 * CELL_SIZE)

/-- Manhattan distance from the food to the cell reached by `move`,
as computed in `get_direction_to_food`. -/
def dist (food head move : Pos) : ℕ :=
  (food.1 - (newPos head move).1).natAbs + (food.2 - (newPos head move).2).natAbs

/-- Embedding of `get_valid_directions`: the directions whose resulting
head cell is in bounds and on neither the snake nor an obstacle. -/
def get_valid_directions (snake obstacles : List Pos) : List Pos :=
  [UP, DOWN, LEFT, RIGHT].filter fun move =>
    decide (0 ≤ (newPos (snake.headD (0, 0)) move).1 ∧
      (newPos (snake.headD (0, 0)) move).1 < WIDTH ∧
      0 ≤ (newPos (snake.headD (0, 0)) move).2 ∧
      (newPos (snake.headD (0, 0)) move).2 < HEIGHT ∧
      newPos (snake.headD (0, 0)) move ∉ snake ∧
      newPos (snake.headD (0, 0)) move ∉ obstacles)

/-- The `for move in valid_moves` loop of `get_direction_to_food`:
the accumulator is `best_move` paired with `min_distance`, with `none`
standing for the initial `None` / `float('inf')` pair, and an update
exactly on `distance < min_distance`. -/
def pickLoop (food head : Pos) : List Pos → Option (Pos × ℕ) → Option (Pos × ℕ)
  | [], best => best
  | m :: rest, none => pickLoop food head rest (some (m, dist food head m))
  | m :: rest, some (b, md) =>
      if dist food head m < md then pickLoop food head rest (some (m, dist food head m))
      else pickLoop food head rest (some (b, md))

/-- Embedding of `get_direction_to_food`.  `choice` stands for
`random.choice`, consulted only on the (unreachable) fallback
`best_move if best_move else random.choice(valid_moves)`. -/
def get_direction_to_food (choice : List Pos → Pos) (snake : List Pos)
    (food : Pos) (obstacles : List Pos) : Pos :=
  let valid_moves := get_valid_directions snake obstacles
  if valid_moves.isEmpty then RIGHT
  else
    match pickLoop food (snake.headD (0, 0)) valid_moves none with
    | some (b, _) => b
    | none => choice valid_moves

/-- One sample of `random_position`:
`(randint(0, 29) * CELL_SIZE, randint(0, 19) * CELL_SIZE)`, with the raw
stream values reduced into the `randint` ranges. -/
def samplePos (r : ℕ × ℕ) : Pos :=
  (((r.1 % 30 : ℕ) : Int) * 20, ((r.2 % 20 : ℕ) : Int) * 20)

/-- A position on the 30 by 20 grid of cells: in bounds and aligned to
`CELL_SIZE`. -/
def inGrid (p : Pos) : Prop :=
  0 ≤ p.1 ∧ p.1 < WIDTH ∧ 0 ≤ p.2 ∧ p.2 < HEIGHT ∧
    p.1 % CELL_SIZE = 0 ∧ p.2 % CELL_SIZE = 0

instance (p : Pos) : Decidable (inGrid p) := by
  unfold inGrid; infer_instance

/-- Embedding of `random_position`: draw from the stream until the
sampled cell avoids `exclude`.  The source loops unboundedly; the
embedding spends one unit of fuel per draw, so `none` means no free
sample appeared within `fuel` draws. -/
def random_position : ℕ → (ℕ → ℕ × ℕ) → List Pos → Option Pos
  | 0, _, _ => none
  | fuel + 1, stream, exclude =>
      if samplePos (stream 0) ∈ exclude then
        random_position fuel (fun n => stream (n + 1)) exclude
      else some (samplePos (stream 0))

/-- The mutable state of one run of `main`, at a tick boundary. -/
structure GameState where
  snake : List Pos
  direction : Pos
  fruit : Pos
  obstacles : List Pos
  lastObstacleTime : Int
  score : Int
  highScore : Int
  stored : Option Int
deriving DecidableEq, Repr

/-- The ambient inputs one tick of `main` consumes: the wall clock,
`random.choice`, and the two `random_position` draw streams with their
fuel. -/
structure TickInput where
  now : Int
  choice : List Pos → Pos
  fruitFuel : ℕ
  fruitStream : ℕ → ℕ × ℕ
  obsFuel : ℕ
  obsStream : ℕ → ℕ × ℕ

/-- Python truthiness of a direction value.  The loop guard
`if new_direction:` tests the returned 2-tuple, and a 2-tuple is
non-empty, hence always truthy. -/
def pyTruthy (_ : Pos) : Bool := true

/-- The heading after the AI step of the loop
(`new_direction = get_direction_to_food(...)`; `if new_direction:
direction = new_direction`). -/
def tickDirection (choice : List Pos → Pos) (s : GameState) : Pos :=
  let nd := get_direction_to_food choice s.snake s.fruit s.obstacles
  if pyTruthy nd then nd else s.direction

/-- The candidate head cell of the tick: current head plus heading. -/
def candidateHead (choice : List Pos → Pos) (s : GameState) : Pos :=
  newPos (s.snake.headD (0, 0)) (tickDirection choice s)

/-- Score after the obstacle check: `max(0, score - 3)` on impact. -/
def scoreAfterHit (s : GameState) (nh : Pos) : Int :=
  if nh ∈ s.obstacles then max 0 (s.score - 3) else s.score

/-- Obstacles after the obstacle check: `obstacles.remove(new_head)`
removes the first occurrence. -/
def obstaclesAfterHit (s : GameState) (nh : Pos) : List Pos :=
  if nh ∈ s.obstacles then s.obstacles.erase nh else s.obstacles

/-- Writing the high-score file (`save_high_score`): the file content
is replaced by the new score.  The file is modelled as `Option Int`,
`none` standing for a missing file. -/
def save_high_score (_ : Option Int) (score : Int) : Option Int :=
  some score

/-- Reading the high-score file (`load_high_score`): 0 when missing. -/
def load_high_score (file : Option Int) : Int :=
  file.getD 0

/-- Tail of the tick (lines 157-160): spawn an obstacle when more than
2 seconds have passed since the last spawn, excluding the snake, the
obstacles and the fruit, and reset the cadence timer. -/
def stepCadence (inp : TickInput) (dir : Pos) (snake : List Pos) (fruit : Pos)
    (obstacles : List Pos) (last : Int) (score highScore : Int) (stored : Option Int) :
    Option (Bool × GameState) :=
  if inp.now - last > 2 then
    match random_position inp.obsFuel inp.obsStream (snake ++ obstacles ++ [fruit]) with
    | none => none
    | some ob => some (true, ⟨snake, dir, fruit, obstacles ++ [ob], inp.now, score, highScore, stored⟩)
  else
    some (true, ⟨snake, dir, fruit, obstacles, last, score, highScore, stored⟩)

/-- The part of the tick after the terminal check (lines 139-160):
obstacle impact, head insertion, fruit handling with relocation and
high-score commit, tail pop, obstacle cadence. -/
def stepAfterTerminal (inp : TickInput) (s : GameState) (nh : Pos) :
    Option (Bool × GameState) :=
  if nh = s.fruit then
    match random_position inp.fruitFuel inp.fruitStream
        ((nh :: s.snake) ++ obstaclesAfterHit s nh) with
    | none => none
    | some fruit1 =>
        stepCadence inp (tickDirection inp.choice s) (nh :: s.snake) fruit1
          (obstaclesAfterHit s nh) s.lastObstacleTime (scoreAfterHit s nh + 5)
          (if scoreAfterHit s nh + 5 > s.highScore then scoreAfterHit s nh + 5
           else s.highScore)
          (if scoreAfterHit s nh + 5 > s.highScore then
            save_high_score s.stored (scoreAfterHit s nh + 5)
           else s.stored)
  else
    stepCadence inp (tickDirection inp.choice s) ((nh :: s.snake).dropLast) s.fruit
      (obstaclesAfterHit s nh) s.lastObstacleTime (scoreAfterHit s nh)
      s.highScore s.stored

/-- One full tick of the `while running` loop.  `some (false, s)` is
the terminal transition (the run ends, state untouched); `some (true, s')`
is a completed tick; `none` means a `random_position` draw found no
free sample within its fuel. -/
def step (inp : TickInput) (s : GameState) : Option (Bool × GameState) :=
  if candidateHead inp.choice s ∈ s.snake ∨
      (candidateHead inp.choice s).1 < 0 ∨ WIDTH ≤ (candidateHead inp.choice s).1 ∨
      (candidateHead inp.choice s).2 < 0 ∨ HEIGHT ≤ (candidateHead inp.choice s).2 then
    some (false, s)
  else
    stepAfterTerminal inp s (candidateHead inp.choice s)

/-- The initial state of `main`: single-cell snake at the arena centre,
heading Right, fruit freshly sampled avoiding the snake, no obstacles,
score 0, high score loaded from the store. -/
def initState (file : Option Int) (t0 : Int) (fuel : ℕ) (stream : ℕ → ℕ × ℕ) :
    Option GameState :=
  match random_position fuel stream [(WIDTH / 2, HEIGHT / 2)] with
  | none => none
  | some fruit =>
      some ⟨[(WIDTH / 2, HEIGHT / 2)], RIGHT, fruit, [], t0, 0, load_high_score file, file⟩

/-- The state after `n` completed ticks, `none` once the run has
terminated (or a draw ran out of fuel). -/
def runState (inputs : ℕ → TickInput) (s0 : GameState) : ℕ → Option GameState
  | 0 => some s0
  | n + 1 =>
      match runState inputs s0 n with
      | some s =>
          match step (inputs n) s with
          | some (true, s') => some s'
          | _ => none
      | none => none

/-- The high-score commit of `main` (lines 151-153): the candidate is
persisted with `save_high_score` exactly when it exceeds the current
high score, which mirrors the stored value (it is `load_high_score` of
the file at startup and is updated alongside every write). -/
def commitIfGreater (file : Option Int) (candidate : Int) : Option Int :=
  if candidate > load_high_score file then save_high_score file candidate else file

lemma samplePos_inGrid (r : ℕ × ℕ) : inGrid (samplePos r) := by
  have h1 : r.1 % 30 < 30 := Nat.mod_lt _ (by norm_num)
  have h2 : r.2 % 20 < 20 := Nat.mod_lt _ (by norm_num)
  refine ⟨?_, ?_, ?_, ?_, ?_, ?_⟩
  · show (0 : Int) ≤ ((r.1 % 30 : ℕ) : Int) * 20
    positivity
  · show ((r.1 % 30 : ℕ) : Int) * 20 < 600
    omega
  · show (0 : Int) ≤ ((r.2 % 20 : ℕ) : Int) * 20
    positivity
  · show ((r.2 % 20 : ℕ) : Int) * 20 < 400
    omega
  · show ((r.1 % 30 : ℕ) : Int) * 20 % 20 = 0
    omega
  · show ((r.2 % 20 : ℕ) : Int) * 20 % 20 = 0
    omega

lemma random_position_mem :
    ∀ (fuel : ℕ) (stream : ℕ → ℕ × ℕ) (exclude : List Pos) (p : Pos),
      random_position fuel stream exclude = some p → p ∉ exclude ∧ inGrid p := by
  intro fuel
  induction fuel with
  | zero => intro stream exclude p h; simp [random_position] at h
  | succ n ih =>
      intro stream exclude p h
      rw [random_position] at h
      by_cases hm : samplePos (stream 0) ∈ exclude
      · rw [if_pos hm] at h
        exact ih _ _ _ h
      · rw [if_neg hm] at h
        cases h
        exact ⟨hm, samplePos_inGrid _⟩

/-- C9: `random_position` returns a cell of the grid outside the
excluded list whenever the random stream produces a free sample within
the allotted draws (which, for a uniform stream over the grid, happens
with probability one exactly when the excluded list does not cover the
grid); it fails only when every draw landed on an excluded cell. -/
theorem random_position_spec (fuel : ℕ) (stream : ℕ → ℕ × ℕ) (exclude : List Pos) :
    ((∃ i, i < fuel ∧ samplePos (stream i) ∉ exclude) →
      ∃ p, random_position fuel stream exclude = some p ∧ inGrid p ∧ p ∉ exclude) ∧
    (random_position fuel stream exclude = none →
      ∀ i, i < fuel → samplePos (stream i) ∈ exclude) := by
  induction fuel generalizing stream with
  | zero =>
      constructor
      · rintro ⟨i, hi, -⟩; omega
      · intro _ i hi; omega
  | succ n ih =>
      constructor
      · rintro ⟨i, hi, hfree⟩
        rw [random_position]
        by_cases hm : samplePos (stream 0) ∈ exclude
        · rw [if_pos hm]
          refine (ih (fun n => stream (n + 1))).1 ⟨i - 1, ?_, ?_⟩
          · rcases Nat.eq_zero_or_pos i with h0 | h0
            · subst h0; exact absurd hm hfree
            · omega
          · rcases Nat.eq_zero_or_pos i with h0 | h0
            · subst h0; exact absurd hm hfree
            · have : i - 1 + 1 = i := by omega
              rw [this]; exact hfree
        · rw [if_neg hm]
          exact ⟨_, rfl, samplePos_inGrid _, hm⟩
      · intro hnone i hi
        rw [random_position] at hnone
        by_cases hm : samplePos (stream 0) ∈ exclude
        · rw [if_pos hm] at hnone
          rcases Nat.eq_zero_or_pos i with h0 | h0
          · subst h0; exact hm
          · have := (ih (fun n => stream (n + 1))).2 hnone (i - 1) (by omega)
            have hidx : i - 1 + 1 = i := by omega
            rwa [hidx] at this
        · rw [if_neg hm] at hnone
          cases hnone

/-- Witness for C9 at a concrete stream and empty exclusion. -/
theorem random_position_witness :
    ∃ p, random_position 1 (fun _ => (0, 0)) [] = some p ∧ inGrid p ∧
      p ∉ ([] : List Pos) :=
  (random_position_spec 1 (fun _ => (0, 0)) []).1 ⟨0, by decide, by decide⟩

/-- C3: the high-score commit persists a candidate exactly when it
strictly exceeds the stored value; in particular committing 12 to a
fresh store makes `load_high_score` return 12, and a later commit of 5
leaves the stored value at 12. -/
theorem high_score_commit_spec :
    (∀ (file : Option Int) (c : Int), load_high_score file < c →
      commitIfGreater file c = some c) ∧
    (∀ (file : Option Int) (c : Int), c ≤ load_high_score file →
      commitIfGreater file c = file) ∧
    load_high_score (commitIfGreater none 12) = 12 ∧
    commitIfGreater (commitIfGreater none 12) 5 = some 12 ∧
    load_high_score (commitIfGreater (commitIfGreater none 12) 5) = 12 := by
  refine ⟨?_, ?_, by decide, by decide, by decide⟩
  · intro file c h
    simp [commitIfGreater, save_high_score, h]
  · intro file c h
    simp [commitIfGreater, not_lt.mpr h]

/-- Witness for C3: both guarded branches at concrete stores. -/
theorem high_score_commit_witness :
    commitIfGreater (some 3) 7 = some 7 ∧ commitIfGreater (some 9) 4 = some 9 :=
  ⟨high_score_commit_spec.1 (some 3) 7 (by decide),
   high_score_commit_spec.2.1 (some 9) 4 (by decide)⟩

/-- C2: a tick whose candidate head cell is a snake-body cell or out of
bounds ends the run: the step yields the Terminated flag with the state
unchanged (snake, fruit, obstacles and score all unmutated). -/
theorem step_terminal_spec (inp : TickInput) (s : GameState)
    (h : candidateHead inp.choice s ∈ s.snake ∨
      (candidateHead inp.choice s).1 < 0 ∨ WIDTH ≤ (candidateHead inp.choice s).1 ∨
      (candidateHead inp.choice s).2 < 0 ∨ HEIGHT ≤ (candidateHead inp.choice s).2) :
    step inp s = some (false, s) := by
  rw [step, if_pos h]

/-- Witness for C2: a cornered snake whose fallback move leaves the
arena is terminated with the state intact. -/
theorem step_terminal_witness :
    step ⟨0, fun _ => RIGHT, 1, fun _ => (0, 0), 1, fun _ => (0, 0)⟩
        ⟨[(580, 380)], RIGHT, (0, 0), [(580, 360), (560, 380)], 0, 0, 0, none⟩ =
      some (false, ⟨[(580, 380)], RIGHT, (0, 0), [(580, 360), (560, 380)], 0, 0, 0, none⟩) :=
  step_terminal_spec _ _ (by decide)

lemma pick_go (f h : Pos) :
    ∀ (rest : List Pos) (b : Pos),
      ∃ r, pickLoop f h rest (some (b, dist f h b)) = some (r, dist f h r) ∧
        dist f h r ≤ dist f h b ∧
        (∀ m ∈ rest, dist f h r ≤ dist f h m) ∧
        (r = b ∨ ∃ l1 l2, rest = l1 ++ r :: l2 ∧ dist f h r < dist f h b ∧
          ∀ m ∈ l1, dist f h r < dist f h m) := by
  intro rest
  induction rest with
  | nil =>
      intro b
      exact ⟨b, rfl, le_refl _, by simp, Or.inl rfl⟩
  | cons m rest ih =>
      intro b
      by_cases hlt : dist f h m < dist f h b
      · obtain ⟨r, hr, hle, hmin, hcase⟩ := ih m
        refine ⟨r, ?_, le_trans hle (le_of_lt hlt), ?_, ?_⟩
        · rw [pickLoop, if_pos hlt]; exact hr
        · intro x hx
          rcases List.mem_cons.mp hx with h1 | h1
          · subst h1; exact hle
          · exact hmin x h1
        · rcases hcase with rfl | ⟨l1, l2, hsplit, hlt2, hall⟩
          · exact Or.inr ⟨[], rest, by simp, hlt, by simp⟩
          · refine Or.inr ⟨m :: l1, l2, by rw [hsplit]; simp, lt_trans hlt2 hlt, ?_⟩
            intro x hx
            rcases List.mem_cons.mp hx with h1 | h1
            · subst h1; exact hlt2
            · exact hall x h1
      · obtain ⟨r, hr, hle, hmin, hcase⟩ := ih b
        have hbm : dist f h b ≤ dist f h m := le_of_not_lt hlt
        refine ⟨r, ?_, hle, ?_, ?_⟩
        · rw [pickLoop, if_neg hlt]; exact hr
        · intro x hx
          rcases List.mem_cons.mp hx with h1 | h1
          · subst h1; exact le_trans hle hbm
          · exact hmin x h1
        · rcases hcase with rfl | ⟨l1, l2, hsplit, hlt2, hall⟩
          · exact Or.inl rfl
          · refine Or.inr ⟨m :: l1, l2, by rw [hsplit]; simp, hlt2, ?_⟩
            intro x hx
            rcases List.mem_cons.mp hx with h1 | h1
            · subst h1; exact lt_of_lt_of_le hlt2 hbm
            · exact hall x h1

lemma get_direction_eq_of_pick (choice : List Pos → Pos) (snake obstacles : List Pos)
    (food : Pos) (v r : Pos) (vs : List Pos)
    (hval : get_valid_directions snake obstacles = v :: vs)
    (hr : pickLoop food (snake.headD (0, 0)) vs
        (some (v, dist food (snake.headD (0, 0)) v)) =
      some (r, dist food (snake.headD (0, 0)) r)) :
    get_direction_to_food choice snake food obstacles = r := by
  rw [get_direction_to_food]
  simp only [hval, List.isEmpty_cons, if_neg Bool.false_ne_true, pickLoop, hr]

/-- C1: for a non-empty snake, `get_direction_to_food` returns Right
when no direction is valid, a direction is valid exactly when its
resulting head cell is in bounds and on neither the snake nor an
obstacle, and when some direction is valid the result is the first
valid direction, in the enumeration order Up, Down, Left, Right, whose
resulting head cell minimises the Manhattan distance to the food. -/
theorem get_direction_to_food_spec (choice : List Pos → Pos)
    (snake obstacles : List Pos) (food : Pos) (_hs : snake ≠ []) :
    (get_valid_directions snake obstacles = [] →
      get_direction_to_food choice snake food obstacles = RIGHT) ∧
    (∀ m : Pos, m ∈ get_valid_directions snake obstacles ↔
      (m ∈ [UP, DOWN, LEFT, RIGHT] ∧
        0 ≤ (newPos (snake.headD (0, 0)) m).1 ∧
        (newPos (snake.headD (0, 0)) m).1 < WIDTH ∧
        0 ≤ (newPos (snake.headD (0, 0)) m).2 ∧
        (newPos (snake.headD (0, 0)) m).2 < HEIGHT ∧
        newPos (snake.headD (0, 0)) m ∉ snake ∧
        newPos (snake.headD (0, 0)) m ∉ obstacles)) ∧
    (get_valid_directions snake obstacles ≠ [] →
      ∃ l1 l2, get_valid_directions snake obstacles =
          l1 ++ get_direction_to_food choice snake food obstacles :: l2 ∧
        (∀ m ∈ l1, dist food (snake.headD (0, 0))
            (get_direction_to_food choice snake food obstacles) <
          dist food (snake.headD (0, 0)) m) ∧
        (∀ m ∈ get_valid_directions snake obstacles,
          dist food (snake.headD (0, 0))
              (get_direction_to_food choice snake food obstacles) ≤
            dist food (snake.headD (0, 0)) m)) := by
  refine ⟨?_, ?_, ?_⟩
  · intro hempty
    rw [get_direction_to_food]
    simp only [hempty, List.isEmpty_nil, if_pos]
  · intro m
    simp only [get_valid_directions, List.mem_filter, decide_eq_true_eq]
  · intro hne
    obtain ⟨v, vs, hval⟩ := List.exists_cons_of_ne_nil hne
    obtain ⟨r, hr, hle, hmin, hcase⟩ := pick_go food (snake.headD (0, 0)) vs v
    have hg := get_direction_eq_of_pick choice snake obstacles food v r vs hval hr
    rw [hg, hval]
    rcases hcase with rfl | ⟨l1, l2, hsplit, hlt2, hall⟩
    · refine ⟨[], vs, by simp, by simp, ?_⟩
      intro m hm
      rcases List.mem_cons.mp hm with h1 | h1
      · subst h1; exact le_refl _
      · exact hmin m h1
    · refine ⟨v :: l1, l2, by rw [hsplit]; simp, ?_, ?_⟩
      · intro m hm
        rcases List.mem_cons.mp hm with h1 | h1
        · subst h1; exact hlt2
        · exact hall m h1
      · intro m hm
        rcases List.mem_cons.mp hm with h1 | h1
        · subst h1; exact le_trans hle (le_refl _)
        · exact hmin m h1

/-- Witness for C1: a cornered snake with no valid direction falls back
to Right. -/
theorem get_direction_to_food_witness :
    get_direction_to_food (fun _ => UP) [((580 : Int), (380 : Int))] (0, 0)
        [((580 : Int), (360 : Int)), ((560 : Int), (380 : Int))] = RIGHT :=
  (get_direction_to_food_spec (fun _ => UP) [((580 : Int), (380 : Int))]
      [((580 : Int), (360 : Int)), ((560 : Int), (380 : Int))] (0, 0)
      (by decide)).1 (by decide)

/-- C10: the AI always yields one of the four direction tuples (hence,
in Python, a truthy value), its result never depends on the
`random.choice` fallback (that expression is unreachable), and the game
loop's heading is overwritten by the AI result on every tick. -/
theorem ai_always_direction_spec (choice choice' : List Pos → Pos)
    (snake obstacles : List Pos) (food : Pos) (_hs : snake ≠ []) :
    get_direction_to_food choice snake food obstacles ∈ [UP, DOWN, LEFT, RIGHT] ∧
    get_direction_to_food choice snake food obstacles =
      get_direction_to_food choice' snake food obstacles ∧
    (∀ s : GameState, tickDirection choice s =
      get_direction_to_food choice s.snake s.fruit s.obstacles) := by
  refine ⟨?_, ?_, ?_⟩
  · by_cases hne : get_valid_directions snake obstacles = []
    · rw [get_direction_to_food]
      simp only [hne, List.isEmpty_nil, if_pos]
      decide
    · obtain ⟨v, vs, hval⟩ := List.exists_cons_of_ne_nil hne
      obtain ⟨r, hr, -, -, hcase⟩ := pick_go food (snake.headD (0, 0)) vs v
      rw [get_direction_eq_of_pick choice snake obstacles food v r vs hval hr]
      have hrv : r ∈ get_valid_directions snake obstacles := by
        rw [hval]
        rcases hcase with rfl | ⟨l1, l2, hsplit, -, -⟩
        · exact List.mem_cons_self _ _
        · rw [hsplit]
          exact List.mem_cons_of_mem _ (by simp)
      rw [get_valid_directions] at hrv
      exact (List.mem_filter.mp hrv).1
  · by_cases hne : get_valid_directions snake obstacles = []
    · rw [get_direction_to_food, get_direction_to_food]
      simp only [hne, List.isEmpty_nil, if_pos]
    · obtain ⟨v, vs, hval⟩ := List.exists_cons_of_ne_nil hne
      obtain ⟨r, hr, -, -, -⟩ := pick_go food (snake.headD (0, 0)) vs v
      rw [get_direction_eq_of_pick choice snake obstacles food v r vs hval hr,
        get_direction_eq_of_pick choice' snake obstacles food v r vs hval hr]
  · intro s
    rw [tickDirection]
    simp [pyTruthy]

lemma stepCadence_some {inp : TickInput} {dir : Pos} {snake : List Pos} {fruit : Pos}
    {obstacles : List Pos} {last : Int} {score highScore : Int} {stored : Option Int}
    {b : Bool} {s' : GameState}
    (h : stepCadence inp dir snake fruit obstacles last score highScore stored =
      some (b, s')) :
    b = true ∧ s'.snake = snake ∧ s'.direction = dir ∧ s'.fruit = fruit ∧
      s'.score = score ∧ s'.highScore = highScore ∧ s'.stored = stored ∧
      ((¬ inp.now - last > 2 ∧ s'.obstacles = obstacles ∧ s'.lastObstacleTime = last) ∨
        (inp.now - last > 2 ∧ s'.lastObstacleTime = inp.now ∧
          ∃ ob, s'.obstacles = obstacles ++ [ob] ∧
            random_position inp.obsFuel inp.obsStream
              (snake ++ obstacles ++ [fruit]) = some ob)) := by
  rw [stepCadence] at h
  by_cases hc : inp.now - last > 2
  · rw [if_pos hc] at h
    cases hrp : random_position inp.obsFuel inp.obsStream (snake ++ obstacles ++ [fruit]) with
    | none => rw [hrp] at h; cases h
    | some ob =>
        rw [hrp] at h
        cases h
        exact ⟨rfl, rfl, rfl, rfl, rfl, rfl, rfl, Or.inr ⟨hc, rfl, ob, rfl, rfl⟩⟩
  · rw [if_neg hc] at h
    cases h
    exact ⟨rfl, rfl, rfl, rfl, rfl, rfl, rfl, Or.inl ⟨hc, rfl, rfl⟩⟩

/-- C6: on a non-terminal tick that reaches the food the new head is
prepended and the tail retained, so the snake grows by one and the
score rises by 5; on any other non-terminal tick the head is prepended
and the tail popped, so the length is unchanged (in particular an
obstacle impact never shrinks the snake). -/
theorem step_move_spec (inp : TickInput) (s s' : GameState)
    (hfo : s.fruit ∉ s.obstacles)
    (hstep : step inp s = some (true, s')) :
    (candidateHead inp.choice s = s.fruit →
      s'.snake = candidateHead inp.choice s :: s.snake ∧
      s'.snake.length = s.snake.length + 1 ∧
      s'.score = s.score + 5) ∧
    (candidateHead inp.choice s ≠ s.fruit →
      s'.snake = (candidateHead inp.choice s :: s.snake).dropLast ∧
      s'.snake.length = s.snake.length) := by
  rw [step] at hstep
  by_cases hterm : candidateHead inp.choice s ∈ s.snake ∨
      (candidateHead inp.choice s).1 < 0 ∨ WIDTH ≤ (candidateHead inp.choice s).1 ∨
      (candidateHead inp.choice s).2 < 0 ∨ HEIGHT ≤ (candidateHead inp.choice s).2
  · rw [if_pos hterm] at hstep
    simp at hstep
  · rw [if_neg hterm, stepAfterTerminal] at hstep
    by_cases hf : candidateHead inp.choice s = s.fruit
    · rw [if_pos hf] at hstep
      cases hrp : random_position inp.fruitFuel inp.fruitStream
          ((candidateHead inp.choice s :: s.snake) ++
            obstaclesAfterHit s (candidateHead inp.choice s)) with
      | none => rw [hrp] at hstep; cases hstep
      | some fruit1 =>
          rw [hrp] at hstep
          obtain ⟨-, hsnake, -, -, hscore, -⟩ := stepCadence_some hstep
          refine ⟨fun _ => ⟨hsnake, by rw [hsnake]; simp, ?_⟩, fun hne => absurd hf hne⟩
          rw [hscore, scoreAfterHit, if_neg (hf ▸ hfo)]
    · rw [if_neg hf] at hstep
      obtain ⟨-, hsnake, -⟩ := stepCadence_some hstep
      refine ⟨fun heq => absurd heq hf, fun _ => ⟨hsnake, ?_⟩⟩
      rw [hsnake, List.length_dropLast, List.length_cons, Nat.succ_sub_one]

/-- Witness for C6: a concrete food-eating tick grows the snake and
adds 5 to the score. -/
theorem step_move_witness :
    (⟨[(120, 100), (100, 100)], RIGHT, (0, 0), [], 0, 5, 5, some 5⟩ :
        GameState).snake =
      candidateHead (fun _ => RIGHT)
          ⟨[(100, 100)], RIGHT, (120, 100), [], 0, 0, 0, none⟩ ::
        (⟨[(100, 100)], RIGHT, (120, 100), [], 0, 0, 0, none⟩ : GameState).snake ∧
    (⟨[(120, 100), (100, 100)], RIGHT, (0, 0), [], 0, 5, 5, some 5⟩ :
        GameState).snake.length =
      (⟨[(100, 100)], RIGHT, (120, 100), [], 0, 0, 0, none⟩ :
        GameState).snake.length + 1 ∧
    (⟨[(120, 100), (100, 100)], RIGHT, (0, 0), [], 0, 5, 5, some 5⟩ :
        GameState).score =
      (⟨[(100, 100)], RIGHT, (120, 100), [], 0, 0, 0, none⟩ : GameState).score + 5 :=
  (step_move_spec ⟨0, fun _ => RIGHT, 1, fun _ => (0, 0), 1, fun _ => (0, 0)⟩
      ⟨[(100, 100)], RIGHT, (120, 100), [], 0, 0, 0, none⟩
      ⟨[(120, 100), (100, 100)], RIGHT, (0, 0), [], 0, 5, 5, some 5⟩
      (by decide) (by decide)).1 (by decide)

/-- Witness for C10 at a concrete arena and two distinct fallback
functions. -/
theorem ai_always_direction_witness :
    get_direction_to_food (fun _ => UP) [((300 : Int), (200 : Int))] (0, 0) [] ∈
      [UP, DOWN, LEFT, RIGHT] ∧
    get_direction_to_food (fun _ => UP) [((300 : Int), (200 : Int))] (0, 0) [] =
      get_direction_to_food (fun _ => DOWN) [((300 : Int), (200 : Int))] (0, 0) [] :=
  ⟨(ai_always_direction_spec (fun _ => UP) (fun _ => DOWN)
      [((300 : Int), (200 : Int))] [] (0, 0) (by decide)).1,
   (ai_always_direction_spec (fun _ => UP) (fun _ => DOWN)
      [((300 : Int), (200 : Int))] [] (0, 0) (by decide)).2.1⟩

/-- C4: on a tick that passes the terminal check and whose candidate
head sits on an active obstacle, the score becomes `max(0, score - 3)`,
exactly that obstacle disappears from the active set (a later cadence
spawn may append a fresh one elsewhere), the move proceeds as normal,
and the run does not terminate. -/
theorem step_obstacle_spec (inp : TickInput) (s s' : GameState) (b : Bool)
    (hsn : s.snake ≠ [])
    (hnd : s.obstacles.Nodup)
    (hterm : ¬(candidateHead inp.choice s ∈ s.snake ∨
      (candidateHead inp.choice s).1 < 0 ∨ WIDTH ≤ (candidateHead inp.choice s).1 ∨
      (candidateHead inp.choice s).2 < 0 ∨ HEIGHT ≤ (candidateHead inp.choice s).2))
    (hob : candidateHead inp.choice s ∈ s.obstacles)
    (hstep : step inp s = some (b, s')) :
    b = true ∧
    s'.score = (if candidateHead inp.choice s = s.fruit then max 0 (s.score - 3) + 5
      else max 0 (s.score - 3)) ∧
    candidateHead inp.choice s ∉ s'.obstacles ∧
    (s'.obstacles = s.obstacles.erase (candidateHead inp.choice s) ∨
      ∃ ob, s'.obstacles = s.obstacles.erase (candidateHead inp.choice s) ++ [ob]) ∧
    s'.snake = (if candidateHead inp.choice s = s.fruit then
      candidateHead inp.choice s :: s.snake
      else (candidateHead inp.choice s :: s.snake).dropLast) := by
  rw [step, if_neg hterm, stepAfterTerminal] at hstep
  have hobs : obstaclesAfterHit s (candidateHead inp.choice s) =
      s.obstacles.erase (candidateHead inp.choice s) := by
    rw [obstaclesAfterHit, if_pos hob]
  have hsc : scoreAfterHit s (candidateHead inp.choice s) = max 0 (s.score - 3) := by
    rw [scoreAfterHit, if_pos hob]
  have hmemdrop : candidateHead inp.choice s ∈
      (candidateHead inp.choice s :: s.snake).dropLast := by
    obtain ⟨x, xs, hxs⟩ := List.exists_cons_of_ne_nil hsn
    rw [hxs, List.dropLast_cons₂]
    exact List.mem_cons_self _ _
  have hne : candidateHead inp.choice s ∉
      s.obstacles.erase (candidateHead inp.choice s) := hnd.not_mem_erase
  by_cases hf : candidateHead inp.choice s = s.fruit
  · rw [if_pos hf] at hstep
    cases hrp : random_position inp.fruitFuel inp.fruitStream
        ((candidateHead inp.choice s :: s.snake) ++
          obstaclesAfterHit s (candidateHead inp.choice s)) with
    | none => rw [hrp] at hstep; cases hstep
    | some fruit1 =>
        rw [hrp] at hstep
        obtain ⟨hb, hsnake, -, -, hscore, -, -, hcad⟩ := stepCadence_some hstep
        refine ⟨hb, ?_, ?_, ?_, ?_⟩
        · rw [if_pos hf, hscore, hsc]
        · rcases hcad with ⟨-, hobst, -⟩ | ⟨-, -, ob, hobst, hrpo⟩
          · rw [hobst, hobs]; exact hne
          · rw [hobst, hobs]
            intro hmem
            rcases List.mem_append.mp hmem with h1 | h1
            · exact hne h1
            · have hobnot := (random_position_mem _ _ _ _ hrpo).1
              rw [List.mem_singleton] at h1
              exact hobnot (by
                subst h1
                exact List.mem_append.mpr (Or.inl (List.mem_append.mpr
                  (Or.inl (List.mem_cons_self _ _)))))
        · rcases hcad with ⟨-, hobst, -⟩ | ⟨-, -, ob, hobst, -⟩
          · exact Or.inl (by rw [hobst, hobs])
          · exact Or.inr ⟨ob, by rw [hobst, hobs]⟩
        · rw [if_pos hf, hsnake]
  · rw [if_neg hf] at hstep
    obtain ⟨hb, hsnake, -, -, hscore, -, -, hcad⟩ := stepCadence_some hstep
    refine ⟨hb, ?_, ?_, ?_, ?_⟩
    · rw [if_neg hf, hscore, hsc]
    · rcases hcad with ⟨-, hobst, -⟩ | ⟨-, -, ob, hobst, hrpo⟩
      · rw [hobst, hobs]; exact hne
      · rw [hobst, hobs]
        intro hmem
        rcases List.mem_append.mp hmem with h1 | h1
        · exact hne h1
        · have hobnot := (random_position_mem _ _ _ _ hrpo).1
          rw [List.mem_singleton] at h1
          exact hobnot (by
            subst h1
            exact List.mem_append.mpr (Or.inl (List.mem_append.mpr
              (Or.inl hmemdrop))))
    · rcases hcad with ⟨-, hobst, -⟩ | ⟨-, -, ob, hobst, -⟩
      · exact Or.inl (by rw [hobst, hobs])
      · exact Or.inr ⟨ob, by rw [hobst, hobs]⟩
    · rw [if_neg hf, hsnake]

def exInp4 : TickInput := ⟨0, fun _ => RIGHT, 1, fun _ => (0, 0), 1, fun _ => (0, 0)⟩

def exS4 : GameState :=
  ⟨[(300, 200)], RIGHT, (0, 0),
    [(300, 180), (300, 220), (280, 200), (320, 200)], 0, 7, 0, none⟩

def exS4' : GameState :=
  ⟨[(320, 200)], RIGHT, (0, 0), [(300, 180), (300, 220), (280, 200)], 0, 4, 0, none⟩

/-- Witness for C4: a cornered snake rams the obstacle to its right,
pays 3 points, removes it, and the run continues. -/
theorem step_obstacle_witness :
    true = true ∧
    exS4'.score = (if candidateHead exInp4.choice exS4 = exS4.fruit then
      max 0 (exS4.score - 3) + 5 else max 0 (exS4.score - 3)) ∧
    candidateHead exInp4.choice exS4 ∉ exS4'.obstacles ∧
    (exS4'.obstacles = exS4.obstacles.erase (candidateHead exInp4.choice exS4) ∨
      ∃ ob, exS4'.obstacles =
        exS4.obstacles.erase (candidateHead exInp4.choice exS4) ++ [ob]) ∧
    exS4'.snake = (if candidateHead exInp4.choice exS4 = exS4.fruit then
      candidateHead exInp4.choice exS4 :: exS4.snake
      else (candidateHead exInp4.choice exS4 :: exS4.snake).dropLast) :=
  step_obstacle_spec exInp4 exS4 exS4' true (by decide) (by decide) (by decide)
    (by decide) (by decide)

/-- C5 counterexample: with the cadence timer last reset at time 0 and
the clock reading exactly 2.0 (elapsed time equal to the threshold T),
the tick completes without spawning any obstacle, although the claimed
at-least-T condition holds: the source spawns only on a strict
`time.time() - last_obstacle_time > 2`. -/
theorem step_cadence_boundary_cex :
    (⟨2, fun _ => RIGHT, 1, fun _ => (0, 0), 1, fun _ => (0, 0)⟩ : TickInput).now -
        (⟨[(300, 200)], RIGHT, (0, 0), [], 0, 0, 0, none⟩ : GameState).lastObstacleTime ≥ 2 ∧
    step ⟨2, fun _ => RIGHT, 1, fun _ => (0, 0), 1, fun _ => (0, 0)⟩
        ⟨[(300, 200)], RIGHT, (0, 0), [], 0, 0, 0, none⟩ =
      some (true, ⟨[(300, 180)], UP, (0, 0), [], 0, 0, 0, none⟩) ∧
    (⟨[(300, 180)], UP, (0, 0), [], 0, 0, 0, none⟩ : GameState).obstacles = [] := by
  decide

/-- C5 (amended): on every successful non-terminal tick a new obstacle
is appended exactly when the elapsed time since the last spawn strictly
exceeds T = 2 seconds, in which case the new obstacle avoids the snake,
the remaining obstacles and the food and the cadence timer resets to
the current clock; otherwise the obstacle set and the timer are left
alone. -/
theorem step_cadence_spec (inp : TickInput) (s s' : GameState)
    (hstep : step inp s = some (true, s')) :
    (inp.now - s.lastObstacleTime > 2 →
      s'.lastObstacleTime = inp.now ∧
      ∃ ob, s'.obstacles = obstaclesAfterHit s (candidateHead inp.choice s) ++ [ob] ∧
        ob ∉ s'.snake ∧ ob ∉ obstaclesAfterHit s (candidateHead inp.choice s) ∧
        ob ≠ s'.fruit ∧ inGrid ob) ∧
    (¬ inp.now - s.lastObstacleTime > 2 →
      s'.obstacles = obstaclesAfterHit s (candidateHead inp.choice s) ∧
      s'.lastObstacleTime = s.lastObstacleTime) := by
  rw [step] at hstep
  by_cases hterm : candidateHead inp.choice s ∈ s.snake ∨
      (candidateHead inp.choice s).1 < 0 ∨ WIDTH ≤ (candidateHead inp.choice s).1 ∨
      (candidateHead inp.choice s).2 < 0 ∨ HEIGHT ≤ (candidateHead inp.choice s).2
  · rw [if_pos hterm] at hstep
    simp at hstep
  · rw [if_neg hterm, stepAfterTerminal] at hstep
    by_cases hf : candidateHead inp.choice s = s.fruit
    · rw [if_pos hf] at hstep
      cases hrp : random_position inp.fruitFuel inp.fruitStream
          ((candidateHead inp.choice s :: s.snake) ++
            obstaclesAfterHit s (candidateHead inp.choice s)) with
      | none => rw [hrp] at hstep; cases hstep
      | some fruit1 =>
          rw [hrp] at hstep
          obtain ⟨-, hsnake, -, hfruit, -, -, -, hcad⟩ := stepCadence_some hstep
          constructor
          · intro hgt
            rcases hcad with ⟨hnot, -, -⟩ | ⟨-, hlast, ob, hobst, hrpo⟩
            · exact absurd hgt hnot
            · have hmem := (random_position_mem _ _ _ _ hrpo).1
              have hgrid := (random_position_mem _ _ _ _ hrpo).2
              refine ⟨hlast, ob, hobst, ?_, ?_, ?_, hgrid⟩
              · rw [hsnake]
                intro hin
                exact hmem (List.mem_append.mpr (Or.inl (List.mem_append.mpr (Or.inl hin))))
              · intro hin
                exact hmem (List.mem_append.mpr (Or.inl (List.mem_append.mpr (Or.inr hin))))
              · intro hin
                rw [hfruit] at hin
                exact hmem (List.mem_append.mpr (Or.inr (List.mem_singleton.mpr hin)))
          · intro hle
            rcases hcad with ⟨-, hobst, hlast⟩ | ⟨hgt, -, -⟩
            · exact ⟨hobst, hlast⟩
            · exact absurd hgt hle
    · rw [if_neg hf] at hstep
      obtain ⟨-, hsnake, -, hfruit, -, -, -, hcad⟩ := stepCadence_some hstep
      constructor
      · intro hgt
        rcases hcad with ⟨hnot, -, -⟩ | ⟨-, hlast, ob, hobst, hrpo⟩
        · exact absurd hgt hnot
        · have hmem := (random_position_mem _ _ _ _ hrpo).1
          have hgrid := (random_position_mem _ _ _ _ hrpo).2
          refine ⟨hlast, ob, hobst, ?_, ?_, ?_, hgrid⟩
          · rw [hsnake]
            intro hin
            exact hmem (List.mem_append.mpr (Or.inl (List.mem_append.mpr (Or.inl hin))))
          · intro hin
            exact hmem (List.mem_append.mpr (Or.inl (List.mem_append.mpr (Or.inr hin))))
          · intro hin
            rw [hfruit] at hin
            exact hmem (List.mem_append.mpr (Or.inr (List.mem_singleton.mpr hin)))
      · intro hle
        rcases hcad with ⟨-, hobst, hlast⟩ | ⟨hgt, -, -⟩
        · exact ⟨hobst, hlast⟩
        · exact absurd hgt hle

def exInp5 : TickInput := ⟨1, fun _ => RIGHT, 1, fun _ => (0, 0), 1, fun _ => (0, 0)⟩

def exS5 : GameState := ⟨[(300, 200)], RIGHT, (0, 0), [], 0, 0, 0, none⟩

def exS5' : GameState := ⟨[(300, 180)], UP, (0, 0), [], 0, 0, 0, none⟩

/-- Witness for C5's amended theorem at a concrete below-threshold
tick. -/
theorem step_cadence_witness :
    exS5'.obstacles = obstaclesAfterHit exS5 (candidateHead exInp5.choice exS5) ∧
    exS5'.lastObstacleTime = exS5.lastObstacleTime :=
  (step_cadence_spec exInp5 exS5 exS5' (by decide)).2 (by decide)

/-- C8: on every successful tick whose candidate head reaches the food,
the relocated food cell avoids the whole new snake (the just-prepended
head included) and every active obstacle (including one spawned later
in the same tick). -/
theorem step_food_relocation_spec (inp : TickInput) (s s' : GameState)
    (hf : candidateHead inp.choice s = s.fruit)
    (hstep : step inp s = some (true, s')) :
    s'.fruit ∉ s'.snake ∧ s'.fruit ∉ s'.obstacles := by
  rw [step] at hstep
  by_cases hterm : candidateHead inp.choice s ∈ s.snake ∨
      (candidateHead inp.choice s).1 < 0 ∨ WIDTH ≤ (candidateHead inp.choice s).1 ∨
      (candidateHead inp.choice s).2 < 0 ∨ HEIGHT ≤ (candidateHead inp.choice s).2
  · rw [if_pos hterm] at hstep
    simp at hstep
  · rw [if_neg hterm, stepAfterTerminal, if_pos hf] at hstep
    cases hrp : random_position inp.fruitFuel inp.fruitStream
        ((candidateHead inp.choice s :: s.snake) ++
          obstaclesAfterHit s (candidateHead inp.choice s)) with
    | none => rw [hrp] at hstep; cases hstep
    | some fruit1 =>
        rw [hrp] at hstep
        obtain ⟨-, hsnake, -, hfruit, -, -, -, hcad⟩ := stepCadence_some hstep
        have hmem := (random_position_mem _ _ _ _ hrp).1
        constructor
        · rw [hfruit, hsnake]
          intro hin
          exact hmem (List.mem_append.mpr (Or.inl hin))
        · rw [hfruit]
          rcases hcad with ⟨-, hobst, -⟩ | ⟨-, -, ob, hobst, hrpo⟩
          · rw [hobst]
            intro hin
            exact hmem (List.mem_append.mpr (Or.inr hin))
          · rw [hobst]
            intro hin
            rcases List.mem_append.mp hin with h1 | h1
            · exact hmem (List.mem_append.mpr (Or.inr h1))
            · have hobnot := (random_position_mem _ _ _ _ hrpo).1
              rw [List.mem_singleton] at h1
              exact hobnot (List.mem_append.mpr (Or.inr (List.mem_singleton.mpr h1.symm)))

def exInp8 : TickInput := ⟨0, fun _ => RIGHT, 1, fun _ => (1, 1), 1, fun _ => (0, 0)⟩

def exS8 : GameState := ⟨[(200, 300)], RIGHT, (220, 300), [], 0, 0, 0, none⟩

def exS8' : GameState :=
  ⟨[(220, 300), (200, 300)], RIGHT, (20, 20), [], 0, 5, 5, some 5⟩

/-- Witness for C8 at a concrete food-eating tick. -/
theorem step_food_relocation_witness :
    exS8'.fruit ∉ exS8'.snake ∧ exS8'.fruit ∉ exS8'.obstacles :=
  step_food_relocation_spec exInp8 exS8 exS8' (by decide) (by decide)

lemma step_preserves_nodup {inp : TickInput} {s : GameState} {b : Bool}
    {s' : GameState} (h : step inp s = some (b, s')) (hnd : s.snake.Nodup) :
    s'.snake.Nodup := by
  rw [step] at h
  by_cases hterm : candidateHead inp.choice s ∈ s.snake ∨
      (candidateHead inp.choice s).1 < 0 ∨ WIDTH ≤ (candidateHead inp.choice s).1 ∨
      (candidateHead inp.choice s).2 < 0 ∨ HEIGHT ≤ (candidateHead inp.choice s).2
  · rw [if_pos hterm] at h
    cases h
    exact hnd
  · rw [if_neg hterm, stepAfterTerminal] at h
    have hn : candidateHead inp.choice s ∉ s.snake := fun hmem => hterm (Or.inl hmem)
    have hcons : (candidateHead inp.choice s :: s.snake).Nodup :=
      List.nodup_cons.mpr ⟨hn, hnd⟩
    by_cases hf : candidateHead inp.choice s = s.fruit
    · rw [if_pos hf] at h
      cases hrp : random_position inp.fruitFuel inp.fruitStream
          ((candidateHead inp.choice s :: s.snake) ++
            obstaclesAfterHit s (candidateHead inp.choice s)) with
      | none => rw [hrp] at h; cases h
      | some fruit1 =>
          rw [hrp] at h
          obtain ⟨-, hsnake, -⟩ := stepCadence_some h
          rw [hsnake]
          exact hcons
    · rw [if_neg hf] at h
      obtain ⟨-, hsnake, -⟩ := stepCadence_some h
      rw [hsnake]
      exact hcons.sublist (List.dropLast_sublist _)

/-- C7: along every run from the single-cell initial state, whatever
the clock values, fallback choices and random draws, the snake's cell
sequence at every tick boundary has no duplicate cells. -/
theorem run_snake_nodup (file : Option Int) (t0 : Int) (fuel : ℕ)
    (stream : ℕ → ℕ × ℕ) (inputs : ℕ → TickInput) (s0 : GameState) (n : ℕ)
    (s : GameState) (h0 : initState file t0 fuel stream = some s0)
    (hr : runState inputs s0 n = some s) : s.snake.Nodup := by
  have hs0 : s0.snake.Nodup := by
    rw [initState] at h0
    cases hrp : random_position fuel stream [(WIDTH / 2, HEIGHT / 2)] with
    | none => rw [hrp] at h0; cases h0
    | some fruit =>
        rw [hrp] at h0
        cases h0
        simp
  clear h0
  induction n generalizing s with
  | zero =>
      rw [runState] at hr
      cases hr
      exact hs0
  | succ n ih =>
      rw [runState] at hr
      cases hq : runState inputs s0 n with
      | none => rw [hq] at hr; simp at hr
      | some t =>
          rw [hq] at hr
          cases hst : step (inputs n) t with
          | none => simp [hst] at hr
          | some p =>
              obtain ⟨pb, ps⟩ := p
              cases pb with
              | false => simp [hst] at hr
              | true =>
                  simp [hst] at hr
                  rw [← hr]
                  exact step_preserves_nodup hst (ih t hq)

def exInp7 : TickInput := ⟨0, fun _ => RIGHT, 1, fun _ => (0, 0), 1, fun _ => (0, 0)⟩

def exS7 : GameState := ⟨[(300, 200)], RIGHT, (0, 0), [], 0, 0, 0, none⟩

/-- Witness for C7: the initial state of a concrete run, after zero
ticks. -/
theorem run_snake_nodup_witness : exS7.snake.Nodup :=
  run_snake_nodup none 0 1 (fun _ => (0, 0)) (fun _ => exInp7) exS7 0 exS7
    (by decide) (by decide)

end Snake
